import Mathlib

/-!
# SecretChat backend: verified shallow embedding

This file embeds the core of the SecretChat backend (a Python/FastAPI
service) in Lean 4 and proves properties of the embedded code.

Conventions of the embedding:
* Bytes are `Nat` values below 256; byte strings are `List Nat`.
* Unicode text is modelled either as Lean `String` (service layer) or as the
  list of its unicode scalar values (`List Nat`, cipher layer).
* Randomly sampled values (IVs, PINs, verification codes, UUIDs) are
  modelled as explicit inputs of the functions that sample them.
* Wall-clock time is modelled as minutes since an arbitrary epoch (`Nat`).
* Database rows are Lean structures, tables are lists kept in insertion
  order, and SQL queries are translated into list operations.
-/

namespace SecretChat

/-! ## Bytes and block-level helpers -/

/-- A valid byte string: every element is below 256. -/
def validBytes (bs : List Nat) : Bool :=
  bs.all (· < 256)

/-- Bytewise XOR of two equal-length blocks. -/
def xorBytes (a b : List Nat) : List Nat :=
  List.zipWith Nat.xor a b

/-- Split a byte string into consecutive chunks of length `n`; `fuel` bounds
the number of chunks (one chunk per unit of fuel). -/
def chunkListAux (n : Nat) : Nat → List Nat → List (List Nat)
  | 0, _ => []
  | _, [] => []
  | fuel + 1, bs => bs.take n :: chunkListAux n fuel (bs.drop n)

/-- Split a byte string into consecutive chunks of length `n`. -/
def chunkList (n : Nat) (bs : List Nat) : List (List Nat) :=
  chunkListAux n bs.length bs

/-! ## PKCS#7 padding over a 128-bit (16-byte) block

Embeds `cryptography.hazmat.primitives.padding.PKCS7(128)`.  `pkcs7Pad`
appends `k = 16 - len % 16` copies of the byte `k`; `pkcs7Unpad` (the
unpadder applied to block-aligned data) checks that the final byte `p`
satisfies `1 ≤ p ≤ 16` and that the last `p` bytes all equal `p`, and strips
them, failing otherwise. -/

def pkcs7Pad (bs : List Nat) : List Nat :=
  let k := 16 - bs.length % 16
  bs ++ List.replicate k k

def pkcs7Unpad (bs : List Nat) : Option (List Nat) :=
  let p := bs.reverse.headD 0
  if 1 ≤ p ∧ p ≤ 16 ∧ ((bs.reverse.take p).all (· = p)) ∧ p ≤ bs.length then
    some (bs.take (bs.length - p))
  else
    none

theorem pkcs7Pad_length_mod (bs : List Nat) : (pkcs7Pad bs).length % 16 = 0 := by
  simp [pkcs7Pad]
  omega

theorem pkcs7Pad_length (bs : List Nat) :
    (pkcs7Pad bs).length = bs.length + (16 - bs.length % 16) := by
  simp [pkcs7Pad]

theorem pkcs7Pad_valid (bs : List Nat) (h : validBytes bs = true) :
    validBytes (pkcs7Pad bs) = true := by
  simp only [pkcs7Pad, validBytes, List.all_append, Bool.and_eq_true, List.all_eq_true,
    decide_eq_true_eq] at *
  refine ⟨h, ?_⟩
  intro b hb
  have := List.eq_of_mem_replicate hb
  omega

theorem pkcs7Unpad_pad (bs : List Nat) : pkcs7Unpad (pkcs7Pad bs) = some bs := by
  have hk1 : 1 ≤ 16 - bs.length % 16 := by omega
  have hk16 : 16 - bs.length % 16 ≤ 16 := by omega
  have hgen : ∀ m : Nat, 1 ≤ m → List.replicate m m = m :: List.replicate (m - 1) m := by
    intro m hm
    rcases m with _ | m'
    · omega
    · simp [List.replicate_succ]
  have hrep : List.replicate (16 - bs.length % 16) (16 - bs.length % 16)
      = (16 - bs.length % 16) ::
        List.replicate (16 - bs.length % 16 - 1) (16 - bs.length % 16) :=
    hgen _ hk1
  have hrev : (pkcs7Pad bs).reverse
      = List.replicate (16 - bs.length % 16) (16 - bs.length % 16) ++ bs.reverse := by
    simp [pkcs7Pad]
  have hrev2 : (pkcs7Pad bs).reverse
      = (16 - bs.length % 16) ::
        (List.replicate (16 - bs.length % 16 - 1) (16 - bs.length % 16) ++ bs.reverse) := by
    rw [hrev, hrep]
    rfl
  have hlen : (pkcs7Pad bs).length = bs.length + (16 - bs.length % 16) :=
    pkcs7Pad_length bs
  have hhead : (pkcs7Pad bs).reverse.headD 0 = 16 - bs.length % 16 := by
    rw [hrev2]
    rfl
  have htake : ((pkcs7Pad bs).reverse.take (16 - bs.length % 16)).all
      (· = 16 - bs.length % 16) = true := by
    rw [hrev]
    have hlenrep : (List.replicate (16 - bs.length % 16) (16 - bs.length % 16)).length
        = 16 - bs.length % 16 := by simp
    rw [List.take_append_of_le_length (le_of_eq hlenrep.symm), List.take_replicate]
    simp only [min_self, List.all_eq_true, decide_eq_true_eq]
    intro b hb
    exact List.eq_of_mem_replicate hb
  rw [pkcs7Unpad]
  simp only [hhead]
  rw [if_pos ⟨hk1, hk16, htake, by omega⟩]
  congr 1
  rw [hlen, show bs.length + (16 - bs.length % 16) - (16 - bs.length % 16) = bs.length by omega]
  simp [pkcs7Pad]

/-! ## Base64 (standard alphabet)

Embeds `base64.b64encode` / `base64.b64decode`.  The decoder models the
decoding of well-formed base64 text and rejects other inputs; every flow
proved below only exercises it on well-formed input (the image of the
encoder). -/

/-- The base64 alphabet: sextet to character. -/
def b64Char (s : Nat) : Char :=
  if s < 26 then Char.ofNat (65 + s)
  else if s < 52 then Char.ofNat (97 + (s - 26))
  else if s < 62 then Char.ofNat (48 + (s - 52))
  else if s = 62 then '+'
  else '/'

/-- The base64 alphabet: character to sextet. -/
def b64Sextet (c : Char) : Option Nat :=
  if 65 ≤ c.toNat ∧ c.toNat ≤ 90 then some (c.toNat - 65)
  else if 97 ≤ c.toNat ∧ c.toNat ≤ 122 then some (26 + (c.toNat - 97))
  else if 48 ≤ c.toNat ∧ c.toNat ≤ 57 then some (52 + (c.toNat - 48))
  else if c = '+' then some 62
  else if c = '/' then some 63
  else none

def b64EncodeL : List Nat → List Char
  | [] => []
  | [a] => [b64Char (a / 4), b64Char (a % 4 * 16), '=', '=']
  | [a, b] => [b64Char (a / 4), b64Char (a % 4 * 16 + b / 16), b64Char (b % 16 * 4), '=']
  | a :: b :: c :: rest =>
    b64Char (a / 4) :: b64Char (a % 4 * 16 + b / 16) :: b64Char (b % 16 * 4 + c / 64)
      :: b64Char (c % 64) :: b64EncodeL rest

def b64DecodeL : List Char → Option (List Nat)
  | [] => some []
  | c1 :: c2 :: c3 :: c4 :: rest =>
    match b64Sextet c1, b64Sextet c2 with
    | some s1, some s2 =>
      if c3 = '=' then
        if c4 = '=' ∧ rest = [] then some [s1 * 4 + s2 / 16] else none
      else
        match b64Sextet c3 with
        | some s3 =>
          if c4 = '=' then
            if rest = [] then some [s1 * 4 + s2 / 16, s2 % 16 * 16 + s3 / 4] else none
          else
            match b64Sextet c4, b64DecodeL rest with
            | some s4, some tail =>
              some ((s1 * 4 + s2 / 16) :: (s2 % 16 * 16 + s3 / 4) :: (s3 % 4 * 64 + s4) :: tail)
            | _, _ => none
        | none => none
    | _, _ => none
  | _ => none

def b64Encode (bs : List Nat) : String :=
  String.mk (b64EncodeL bs)

def b64Decode (s : String) : Option (List Nat) :=
  b64DecodeL s.data

theorem b64Sextet_b64Char (s : Nat) (h : s < 64) : b64Sextet (b64Char s) = some s := by
  have : ∀ t : Fin 64, b64Sextet (b64Char t.val) = some t.val := by decide
  exact this ⟨s, h⟩

theorem b64Char_ne_eq (s : Nat) (h : s < 64) : b64Char s ≠ '=' := by
  have : ∀ t : Fin 64, b64Char t.val ≠ '=' := by decide
  exact this ⟨s, h⟩

theorem b64DecodeL_encodeL (bs : List Nat) (h : validBytes bs = true) :
    b64DecodeL (b64EncodeL bs) = some bs := by
  induction bs using b64EncodeL.induct with
  | case1 =>
    rfl
  | case2 a =>
    simp only [validBytes, List.all_eq_true, decide_eq_true_eq] at h
    have ha : a < 256 := h a (by simp)
    rw [b64EncodeL, b64DecodeL, b64Sextet_b64Char (a / 4) (by omega),
      b64Sextet_b64Char (a % 4 * 16) (by omega)]
    simp
    omega
  | case3 a b =>
    simp only [validBytes, List.all_eq_true, decide_eq_true_eq] at h
    have ha : a < 256 := h a (by simp)
    have hb : b < 256 := h b (by simp)
    have h3 : b64Char (b % 16 * 4) ≠ '=' := b64Char_ne_eq _ (by omega)
    rw [b64EncodeL, b64DecodeL, b64Sextet_b64Char (a / 4) (by omega),
      b64Sextet_b64Char (a % 4 * 16 + b / 16) (by omega),
      b64Sextet_b64Char (b % 16 * 4) (by omega)]
    simp [h3]
    omega
  | case4 a b c rest ih =>
    simp only [validBytes, List.all_eq_true, decide_eq_true_eq] at h
    have ha : a < 256 := h a (by simp)
    have hb : b < 256 := h b (by simp)
    have hc : c < 256 := h c (by simp)
    have hrest : validBytes rest = true := by
      simp only [validBytes, List.all_eq_true, decide_eq_true_eq]
      intro x hx
      exact h x (by simp [hx])
    have h3 : b64Char (b % 16 * 4 + c / 64) ≠ '=' := b64Char_ne_eq _ (by omega)
    have h4 : b64Char (c % 64) ≠ '=' := b64Char_ne_eq _ (by omega)
    rw [b64EncodeL, b64DecodeL, b64Sextet_b64Char (a / 4) (by omega),
      b64Sextet_b64Char (a % 4 * 16 + b / 16) (by omega),
      b64Sextet_b64Char (b % 16 * 4 + c / 64) (by omega),
      b64Sextet_b64Char (c % 64) (by omega), ih hrest]
    simp [h3, h4]
    omega

theorem b64Decode_encode (bs : List Nat) (h : validBytes bs = true) :
    b64Decode (b64Encode bs) = some bs :=
  b64DecodeL_encodeL bs h

theorem b64Encode_injOn (a b : List Nat) (ha : validBytes a = true)
    (hb : validBytes b = true) (heq : b64Encode a = b64Encode b) : a = b := by
  have h1 := b64Decode_encode a ha
  have h2 := b64Decode_encode b hb
  rw [heq, h2] at h1
  exact (Option.some.injEq ..▸ h1).symm ▸ rfl

/-! ## UTF-8

Embeds Python's `str.encode('utf-8')` and `bytes.decode('utf-8')`.  Text is
modelled as the list of its unicode scalar values; a scalar is encodable
exactly when it is below `0x110000` and not a surrogate, which is what
CPython enforces.  The decoder validates continuation bytes, rejects
overlong forms, surrogates and values above `0x10FFFF`, as CPython does. -/

def validScalar (c : Nat) : Bool :=
  decide (c < 0x110000) && !(decide (0xD800 ≤ c) && decide (c < 0xE000))

def validScalars (cs : List Nat) : Bool :=
  cs.all validScalar

def utf8EncodeChar (c : Nat) : List Nat :=
  if c < 0x80 then [c]
  else if c < 0x800 then [0xC0 + c / 64, 0x80 + c % 64]
  else if c < 0x10000 then [0xE0 + c / 4096, 0x80 + c / 64 % 64, 0x80 + c % 64]
  else [0xF0 + c / 262144, 0x80 + c / 4096 % 64, 0x80 + c / 64 % 64, 0x80 + c % 64]

def utf8Encode (cs : List Nat) : List Nat :=
  (cs.map utf8EncodeChar).flatten

/-- Decode the first scalar of a UTF-8 byte string whose leading byte is `b`
and whose remaining bytes are `rest`; return the scalar and the unconsumed
suffix (with a length bound that justifies termination of `utf8Decode`). -/
def utf8DecodeFirst (b : Nat) (rest : List Nat) :
    Option (Nat × {l : List Nat // l.length ≤ rest.length}) :=
  if b < 0x80 then some (b, ⟨rest, le_refl _⟩)
  else if b < 0xC2 then none
  else if b < 0xE0 then
    match rest with
    | b1 :: rest1 =>
      if 0x80 ≤ b1 ∧ b1 < 0xC0 then
        some ((b - 0xC0) * 64 + (b1 - 0x80), ⟨rest1, by simp⟩)
      else none
    | [] => none
  else if b < 0xF0 then
    match rest with
    | b1 :: b2 :: rest2 =>
      if (0x80 ≤ b1 ∧ b1 < 0xC0) ∧ (0x80 ≤ b2 ∧ b2 < 0xC0) then
        if 0x800 ≤ (b - 0xE0) * 4096 + (b1 - 0x80) * 64 + (b2 - 0x80) ∧
            ¬(0xD800 ≤ (b - 0xE0) * 4096 + (b1 - 0x80) * 64 + (b2 - 0x80) ∧
              (b - 0xE0) * 4096 + (b1 - 0x80) * 64 + (b2 - 0x80) < 0xE000) then
          some ((b - 0xE0) * 4096 + (b1 - 0x80) * 64 + (b2 - 0x80),
            ⟨rest2, by simp; omega⟩)
        else none
      else none
    | _ => none
  else if b < 0xF5 then
    match rest with
    | b1 :: b2 :: b3 :: rest3 =>
      if (0x80 ≤ b1 ∧ b1 < 0xC0) ∧ (0x80 ≤ b2 ∧ b2 < 0xC0) ∧ (0x80 ≤ b3 ∧ b3 < 0xC0) then
        if 0x10000 ≤ (b - 0xF0) * 262144 + (b1 - 0x80) * 4096 + (b2 - 0x80) * 64 + (b3 - 0x80) ∧
            (b - 0xF0) * 262144 + (b1 - 0x80) * 4096 + (b2 - 0x80) * 64 + (b3 - 0x80)
              < 0x110000 then
          some ((b - 0xF0) * 262144 + (b1 - 0x80) * 4096 + (b2 - 0x80) * 64 + (b3 - 0x80),
            ⟨rest3, by simp; omega⟩)
        else none
      else none
    | _ => none
  else none

def utf8DecodeAux : Nat → List Nat → Option (List Nat)
  | _, [] => some []
  | 0, _ :: _ => none
  | fuel + 1, b :: rest =>
    match utf8DecodeFirst b rest with
    | some (c, rest1) => (utf8DecodeAux fuel rest1.val).map (c :: ·)
    | none => none

def utf8Decode (bs : List Nat) : Option (List Nat) :=
  utf8DecodeAux bs.length bs

theorem utf8DecodeAux_congr :
    ∀ (fuel1 fuel2 : Nat) (bs : List Nat), bs.length ≤ fuel1 → bs.length ≤ fuel2 →
      utf8DecodeAux fuel1 bs = utf8DecodeAux fuel2 bs := by
  intro fuel1
  induction fuel1 with
  | zero =>
    intro fuel2 bs h1 _
    have : bs = [] := List.length_eq_zero.mp (by omega)
    subst this
    cases fuel2 <;> rfl
  | succ f1 ih =>
    intro fuel2 bs h1 h2
    cases bs with
    | nil => cases fuel2 <;> rfl
    | cons b rest =>
      cases fuel2 with
      | zero => simp at h2
      | succ f2 =>
        have e1 : utf8DecodeAux (f1 + 1) (b :: rest)
            = match utf8DecodeFirst b rest with
              | some (c, rest1) => (utf8DecodeAux f1 rest1.val).map (c :: ·)
              | none => none := rfl
        have e2 : utf8DecodeAux (f2 + 1) (b :: rest)
            = match utf8DecodeFirst b rest with
              | some (c, rest1) => (utf8DecodeAux f2 rest1.val).map (c :: ·)
              | none => none := rfl
        rw [e1, e2]
        cases hf : utf8DecodeFirst b rest with
        | none => rfl
        | some cr =>
          obtain ⟨c, rest1⟩ := cr
          have hr := rest1.property
          simp only []
          rw [ih f2 rest1.val (by simp at h1; omega) (by simp at h2; omega)]

theorem utf8Decode_nil : utf8Decode [] = some [] := rfl

theorem utf8Decode_cons (b : Nat) (bs : List Nat) :
    utf8Decode (b :: bs)
      = match utf8DecodeFirst b bs with
        | some (c, rest1) => (utf8Decode rest1.val).map (c :: ·)
        | none => none := by
  show utf8DecodeAux (bs.length + 1) (b :: bs) = _
  have e1 : utf8DecodeAux (bs.length + 1) (b :: bs)
      = match utf8DecodeFirst b bs with
        | some (c, rest1) => (utf8DecodeAux bs.length rest1.val).map (c :: ·)
        | none => none := rfl
  rw [e1]
  cases hf : utf8DecodeFirst b bs with
  | none => rfl
  | some cr =>
    obtain ⟨c, rest1⟩ := cr
    have hr := rest1.property
    simp only []
    rw [utf8Decode, utf8DecodeAux_congr bs.length rest1.val.length rest1.val
      (by omega) (le_refl _)]

theorem utf8DecodeFirst1 (b0 : Nat) (bs : List Nat) (h : b0 < 0x80) :
    utf8DecodeFirst b0 bs = some (b0, ⟨bs, le_refl _⟩) := by
  rw [utf8DecodeFirst.eq_def, if_pos h]

theorem utf8DecodeFirst2 (b0 b1 : Nat) (bs : List Nat)
    (h0 : 0xC2 ≤ b0 ∧ b0 < 0xE0) (h1 : 0x80 ≤ b1 ∧ b1 < 0xC0) :
    utf8DecodeFirst b0 (b1 :: bs)
      = some ((b0 - 0xC0) * 64 + (b1 - 0x80), ⟨bs, by simp⟩) := by
  rw [utf8DecodeFirst.eq_def, if_neg (by omega), if_neg (by omega), if_pos (by omega)]
  simp only [if_pos h1]

theorem utf8DecodeFirst3 (b0 b1 b2 : Nat) (bs : List Nat)
    (h0 : 0xE0 ≤ b0 ∧ b0 < 0xF0) (h1 : 0x80 ≤ b1 ∧ b1 < 0xC0) (h2 : 0x80 ≤ b2 ∧ b2 < 0xC0)
    (hv : 0x800 ≤ (b0 - 0xE0) * 4096 + (b1 - 0x80) * 64 + (b2 - 0x80) ∧
      ¬(0xD800 ≤ (b0 - 0xE0) * 4096 + (b1 - 0x80) * 64 + (b2 - 0x80) ∧
        (b0 - 0xE0) * 4096 + (b1 - 0x80) * 64 + (b2 - 0x80) < 0xE000)) :
    utf8DecodeFirst b0 (b1 :: b2 :: bs)
      = some ((b0 - 0xE0) * 4096 + (b1 - 0x80) * 64 + (b2 - 0x80),
          ⟨bs, by simp; omega⟩) := by
  have hg : (0x80 ≤ b1 ∧ b1 < 0xC0) ∧ (0x80 ≤ b2 ∧ b2 < 0xC0) := ⟨h1, h2⟩
  rw [utf8DecodeFirst.eq_def, if_neg (by omega), if_neg (by omega), if_neg (by omega),
    if_pos (by omega)]
  simp only [if_pos hg, if_pos hv]

theorem utf8DecodeFirst4 (b0 b1 b2 b3 : Nat) (bs : List Nat)
    (h0 : 0xF0 ≤ b0 ∧ b0 < 0xF5) (h1 : 0x80 ≤ b1 ∧ b1 < 0xC0)
    (h2 : 0x80 ≤ b2 ∧ b2 < 0xC0) (h3 : 0x80 ≤ b3 ∧ b3 < 0xC0)
    (hv : 0x10000 ≤ (b0 - 0xF0) * 262144 + (b1 - 0x80) * 4096 + (b2 - 0x80) * 64 + (b3 - 0x80) ∧
      (b0 - 0xF0) * 262144 + (b1 - 0x80) * 4096 + (b2 - 0x80) * 64 + (b3 - 0x80) < 0x110000) :
    utf8DecodeFirst b0 (b1 :: b2 :: b3 :: bs)
      = some ((b0 - 0xF0) * 262144 + (b1 - 0x80) * 4096 + (b2 - 0x80) * 64 + (b3 - 0x80),
          ⟨bs, by simp; omega⟩) := by
  have hg : (0x80 ≤ b1 ∧ b1 < 0xC0) ∧ (0x80 ≤ b2 ∧ b2 < 0xC0) ∧ (0x80 ≤ b3 ∧ b3 < 0xC0) :=
    ⟨h1, h2, h3⟩
  rw [utf8DecodeFirst.eq_def, if_neg (by omega), if_neg (by omega), if_neg (by omega),
    if_neg (by omega), if_pos (by omega)]
  simp only [if_pos hg, if_pos hv]

theorem utf8Decode_encodeChar_append (c : Nat) (h : validScalar c = true) (bs : List Nat) :
    utf8Decode (utf8EncodeChar c ++ bs) = (utf8Decode bs).map (c :: ·) := by
  simp only [validScalar, Bool.and_eq_true, Bool.not_eq_true', Bool.and_eq_false_iff,
    decide_eq_true_eq, decide_eq_false_iff_not, not_lt, not_le] at h
  obtain ⟨hlt, hsur⟩ := h
  by_cases h1 : c < 0x80
  · rw [utf8EncodeChar, if_pos h1, List.cons_append, List.nil_append,
      utf8Decode_cons, utf8DecodeFirst1 c bs h1]
  · by_cases h2 : c < 0x800
    · have hval : (0xC0 + c / 64 - 0xC0) * 64 + (0x80 + c % 64 - 0x80) = c := by omega
      rw [utf8EncodeChar, if_neg h1, if_pos h2]
      rw [show ([0xC0 + c / 64, 0x80 + c % 64] : List Nat) ++ bs
          = (0xC0 + c / 64) :: (0x80 + c % 64) :: bs from rfl]
      rw [utf8Decode_cons, utf8DecodeFirst2 _ _ bs (by omega) (by omega)]
      simp only [hval]
    · by_cases h3 : c < 0x10000
      · have hval : (0xE0 + c / 4096 - 0xE0) * 4096 + (0x80 + c / 64 % 64 - 0x80) * 64 +
            (0x80 + c % 64 - 0x80) = c := by omega
        have hs : ¬(0xD800 ≤ c ∧ c < 0xE000) := by
          rcases hsur with h | h <;> omega
        rw [utf8EncodeChar, if_neg h1, if_neg h2, if_pos h3]
        rw [show ([0xE0 + c / 4096, 0x80 + c / 64 % 64, 0x80 + c % 64] : List Nat) ++ bs
            = (0xE0 + c / 4096) :: (0x80 + c / 64 % 64) :: (0x80 + c % 64) :: bs from rfl]
        rw [utf8Decode_cons, utf8DecodeFirst3 _ _ _ bs (by omega) (by omega) (by omega)
          (by rw [hval]; exact ⟨by omega, hs⟩)]
        simp only [hval]
      · have hval : (0xF0 + c / 262144 - 0xF0) * 262144 + (0x80 + c / 4096 % 64 - 0x80) * 4096 +
            (0x80 + c / 64 % 64 - 0x80) * 64 + (0x80 + c % 64 - 0x80) = c := by omega
        rw [utf8EncodeChar, if_neg h1, if_neg h2, if_neg h3]
        rw [show ([0xF0 + c / 262144, 0x80 + c / 4096 % 64, 0x80 + c / 64 % 64, 0x80 + c % 64]
              : List Nat) ++ bs
            = (0xF0 + c / 262144) :: (0x80 + c / 4096 % 64) :: (0x80 + c / 64 % 64)
              :: (0x80 + c % 64) :: bs from rfl]
        rw [utf8Decode_cons, utf8DecodeFirst4 _ _ _ _ bs (by omega) (by omega) (by omega)
          (by omega) (by rw [hval]; omega)]
        simp only [hval]

theorem utf8Decode_encode (cs : List Nat) (h : validScalars cs = true) :
    utf8Decode (utf8Encode cs) = some cs := by
  induction cs with
  | nil =>
    exact utf8Decode_nil
  | cons c cs ih =>
    simp only [validScalars, List.all_cons, Bool.and_eq_true] at h
    have hcs : validScalars cs = true := h.2
    have henc : utf8Encode (c :: cs) = utf8EncodeChar c ++ utf8Encode cs := by
      simp [utf8Encode]
    rw [henc, utf8Decode_encodeChar_append c h.1, ih hcs]
    rfl

theorem utf8Encode_valid (cs : List Nat) (h : validScalars cs = true) :
    validBytes (utf8Encode cs) = true := by
  induction cs with
  | nil => rfl
  | cons c cs ih =>
    simp only [validScalars, List.all_cons, Bool.and_eq_true] at h
    have hrest := ih h.2
    have hc := h.1
    simp only [validScalar, Bool.and_eq_true, Bool.not_eq_true', Bool.and_eq_false_iff,
      decide_eq_true_eq, decide_eq_false_iff_not, not_lt, not_le] at hc
    have henc : utf8Encode (c :: cs) = utf8EncodeChar c ++ utf8Encode cs := by
      simp [utf8Encode]
    rw [henc]
    simp only [validBytes, List.all_append, Bool.and_eq_true] at *
    refine ⟨?_, hrest⟩
    simp only [List.all_eq_true, decide_eq_true_eq]
    intro b hb
    rw [utf8EncodeChar] at hb
    split at hb
    · simp at hb
      omega
    · split at hb
      · simp at hb
        rcases hb with h | h <;> omega
      · split at hb
        · simp at hb
          rcases hb with h | h | h <;> omega
        · simp at hb
          rcases hb with h | h | h | h <;> omega

/-! ## The block cipher and CBC mode

`cryptography`'s AES implementation is an external library primitive, not
repository code; it is modelled as any pair of key-indexed maps on valid
16-byte blocks such that decryption inverts encryption.  The AES class
accepts key sizes of 128, 192 and 256 bits, which the embedding records in
`aesKeySizes`. -/

def validBlock (b : List Nat) : Bool :=
  decide (b.length = 16) && validBytes b

structure BlockCipher where
  enc : List Nat → List Nat → List Nat
  dec : List Nat → List Nat → List Nat
  enc_valid : ∀ k b, validBlock b = true → validBlock (enc k b) = true
  dec_enc : ∀ k b, validBlock b = true → dec k (enc k b) = b

/-- A concrete `BlockCipher` instance, used to evaluate the parametric model
at fully concrete inputs. -/
def idBlockCipher : BlockCipher where
  enc := fun _ b => b
  dec := fun _ b => b
  enc_valid := fun _ _ h => h
  dec_enc := fun _ _ _ => rfl

/-- Key sizes (in bytes) accepted by the AES constructor. -/
def aesKeySizes (n : Nat) : Bool :=
  decide (n = 16) || decide (n = 24) || decide (n = 32)

/-- CBC encryption of a list of 16-byte blocks, chaining from `prev`. -/
def cbcEncBlocks (C : BlockCipher) (key : List Nat) (prev : List Nat) :
    List (List Nat) → List (List Nat)
  | [] => []
  | b :: bs =>
    let c := C.enc key (xorBytes b prev)
    c :: cbcEncBlocks C key c bs

/-- CBC decryption of a list of 16-byte blocks, chaining from `prev`. -/
def cbcDecBlocks (C : BlockCipher) (key : List Nat) (prev : List Nat) :
    List (List Nat) → List (List Nat)
  | [] => []
  | c :: cs => xorBytes (C.dec key c) prev :: cbcDecBlocks C key c cs

theorem xorBytes_xorBytes (a p : List Nat) (h : a.length = p.length) :
    xorBytes (xorBytes a p) p = a := by
  induction a generalizing p with
  | nil => simp [xorBytes]
  | cons x xs ih =>
    rcases p with _ | ⟨y, ys⟩
    · simp at h
    · simp only [xorBytes, List.zipWith_cons_cons]
      have hx : Nat.xor (Nat.xor x y) y = x := by
        have hh : (x ^^^ y) ^^^ y = x := by rw [Nat.xor_assoc, Nat.xor_self, Nat.xor_zero]
        exact hh
      rw [hx]
      congr 1
      exact ih ys (by simpa using h)

theorem xorBytes_length (a p : List Nat) :
    (xorBytes a p).length = min a.length p.length := by
  simp [xorBytes]

theorem xorBytes_lt (a p : List Nat) (ha : ∀ x ∈ a, x < 256) (hp : ∀ x ∈ p, x < 256) :
    ∀ x ∈ xorBytes a p, x < 256 := by
  induction a generalizing p with
  | nil => simp [xorBytes]
  | cons x xs ih =>
    rcases p with _ | ⟨y, ys⟩
    · simp [xorBytes]
    · intro z hz
      simp only [xorBytes, List.zipWith_cons_cons, List.mem_cons] at hz
      rcases hz with h | h
      · subst h
        have hx := ha x (by simp)
        have hy := hp y (by simp)
        have : Nat.xor x y < 2 ^ 8 := Nat.xor_lt_two_pow (by simpa using hx) (by simpa using hy)
        simpa using this
      · exact ih ys (fun u hu => ha u (by simp [hu])) (fun u hu => hp u (by simp [hu])) z h

theorem xorBytes_valid (a p : List Nat) (ha : validBlock a = true)
    (hp : validBlock p = true) : validBlock (xorBytes a p) = true := by
  simp only [validBlock, validBytes, Bool.and_eq_true, decide_eq_true_eq,
    List.all_eq_true, decide_eq_true_eq] at *
  refine ⟨by rw [xorBytes_length, ha.1, hp.1]; simp, ?_⟩
  intro x hx
  exact xorBytes_lt a p ha.2 hp.2 x hx

theorem cbcDecBlocks_encBlocks (C : BlockCipher) (key : List Nat) (bs : List (List Nat)) :
    ∀ prev, validBlock prev = true → (∀ b ∈ bs, validBlock b = true) →
      cbcDecBlocks C key prev (cbcEncBlocks C key prev bs) = bs := by
  induction bs with
  | nil => intro prev _ _; rfl
  | cons b bs ih =>
    intro prev hprev hall
    have hb : validBlock b = true := hall b (by simp)
    have hxor : validBlock (xorBytes b prev) = true := xorBytes_valid b prev hb hprev
    have hc : validBlock (C.enc key (xorBytes b prev)) = true := C.enc_valid key _ hxor
    simp only [cbcEncBlocks, cbcDecBlocks]
    congr 1
    · rw [C.dec_enc key _ hxor]
      apply xorBytes_xorBytes
      simp only [validBlock, validBytes, Bool.and_eq_true, decide_eq_true_eq] at hb hprev
      rw [hb.1, hprev.1]
    · exact ih _ hc (fun x hx => hall x (by simp [hx]))

theorem cbcEncBlocks_valid (C : BlockCipher) (key : List Nat) (bs : List (List Nat)) :
    ∀ prev, validBlock prev = true → (∀ b ∈ bs, validBlock b = true) →
      ∀ c ∈ cbcEncBlocks C key prev bs, validBlock c = true := by
  induction bs with
  | nil => intro prev _ _ c hc; simp [cbcEncBlocks] at hc
  | cons b bs ih =>
    intro prev hprev hall c hc
    have hb : validBlock b = true := hall b (by simp)
    have hxor : validBlock (xorBytes b prev) = true := xorBytes_valid b prev hb hprev
    have henc : validBlock (C.enc key (xorBytes b prev)) = true := C.enc_valid key _ hxor
    simp only [cbcEncBlocks, List.mem_cons] at hc
    rcases hc with h | h
    · subst h; exact henc
    · exact ih _ henc (fun x hx => hall x (by simp [hx])) c h

theorem chunkListAux_flatten (n : Nat) (hn : 0 < n) :
    ∀ (fuel : Nat) (bs : List Nat), bs.length ≤ fuel →
      (chunkListAux n fuel bs).flatten = bs := by
  intro fuel
  induction fuel with
  | zero =>
    intro bs h
    have : bs = [] := List.length_eq_zero.mp (by omega)
    subst this
    rfl
  | succ fuel ih =>
    intro bs h
    cases bs with
    | nil => rfl
    | cons x xs =>
      show (List.take n (x :: xs) :: chunkListAux n fuel (List.drop n (x :: xs))).flatten
        = x :: xs
      simp only [List.flatten_cons]
      rw [ih _ (by simp only [List.length_drop]; simp at h ⊢; omega)]
      exact List.take_append_drop n (x :: xs)

theorem chunkList_flatten (n : Nat) (hn : 0 < n) (bs : List Nat) :
    (chunkList n bs).flatten = bs :=
  chunkListAux_flatten n hn bs.length bs (le_refl _)

theorem chunkListAux_valid :
    ∀ (fuel : Nat) (bs : List Nat), bs.length ≤ fuel → bs.length % 16 = 0 →
      validBytes bs = true → ∀ b ∈ chunkListAux 16 fuel bs, validBlock b = true := by
  intro fuel
  induction fuel with
  | zero =>
    intro bs h _ _
    have : bs = [] := List.length_eq_zero.mp (by omega)
    subst this
    intro b hb
    simp [chunkListAux] at hb
  | succ fuel ih =>
    intro bs h hmod hv
    cases bs with
    | nil => intro b hb; simp [chunkListAux] at hb
    | cons x xs =>
      intro b hb
      have hlen : 16 ≤ (x :: xs).length := by
        have : 0 < (x :: xs).length := by simp
        omega
      have hb1 : b ∈ List.take 16 (x :: xs) :: chunkListAux 16 fuel (List.drop 16 (x :: xs)) := hb
      rcases List.mem_cons.mp hb1 with hb2 | hb2
      · subst hb2
        simp only [validBlock, validBytes, Bool.and_eq_true, decide_eq_true_eq,
          List.all_eq_true]
        refine ⟨by simp only [List.length_take]; omega, ?_⟩
        intro y hy
        have := List.mem_of_mem_take hy
        simp only [validBytes, List.all_eq_true, decide_eq_true_eq] at hv
        simpa using hv y this
      · refine ih (List.drop 16 (x :: xs)) ?_ ?_ ?_ b hb2
        · simp only [List.length_drop]
          simp at h ⊢
          omega
        · simp only [List.length_drop]
          omega
        · simp only [validBytes, List.all_eq_true] at *
          intro y hy
          exact hv y (List.mem_of_mem_drop hy)

theorem chunkList_valid (bs : List Nat) (hmod : bs.length % 16 = 0)
    (hv : validBytes bs = true) : ∀ b ∈ chunkList 16 bs, validBlock b = true :=
  chunkListAux_valid bs.length bs (le_refl _) hmod hv

theorem chunkListAux_of_blocks :
    ∀ (blocks : List (List Nat)), (∀ b ∈ blocks, b.length = 16) →
      ∀ (fuel : Nat), blocks.flatten.length ≤ fuel →
        chunkListAux 16 fuel blocks.flatten = blocks := by
  intro blocks
  induction blocks with
  | nil =>
    intro _ fuel _
    cases fuel <;> rfl
  | cons b bs ih =>
    intro h fuel hfuel
    have hb : b.length = 16 := h b (by simp)
    have hlen : (b :: bs).flatten.length = 16 + bs.flatten.length := by
      simp [hb]
    cases fuel with
    | zero => omega
    | succ fuel =>
      have hcons : ∃ x xs, (b :: bs).flatten = x :: xs := by
        cases hflat : (b :: bs).flatten with
        | nil =>
          rw [hflat] at hlen
          simp only [List.length_nil] at hlen
          omega
        | cons x xs => exact ⟨x, xs, rfl⟩
      obtain ⟨x, xs, hflat⟩ := hcons
      rw [hflat]
      show List.take 16 (x :: xs) :: chunkListAux 16 fuel (List.drop 16 (x :: xs)) = b :: bs
      rw [← hflat]
      have htake : List.take 16 (b :: bs).flatten = b := by
        simp only [List.flatten_cons]
        rw [List.take_append_of_le_length (by omega), List.take_of_length_le (by omega)]
      have hdrop : List.drop 16 (b :: bs).flatten = bs.flatten := by
        simp only [List.flatten_cons]
        rw [List.drop_append_of_le_length (by omega), List.drop_of_length_le (by omega),
          List.nil_append]
      rw [htake, hdrop, ih (fun y hy => h y (by simp [hy])) fuel (by omega)]

theorem chunkList_flatten_of_blocks (blocks : List (List Nat))
    (h : ∀ b ∈ blocks, b.length = 16) :
    chunkList 16 blocks.flatten = blocks :=
  chunkListAux_of_blocks blocks h blocks.flatten.length (le_refl _)

theorem flatten_valid (blocks : List (List Nat))
    (h : ∀ b ∈ blocks, validBlock b = true) : validBytes blocks.flatten = true := by
  simp only [validBytes, List.all_eq_true, decide_eq_true_eq]
  intro x hx
  rw [List.mem_flatten] at hx
  obtain ⟨b, hb, hxb⟩ := hx
  have := h b hb
  simp only [validBlock, validBytes, Bool.and_eq_true, decide_eq_true_eq,
    List.all_eq_true] at this
  exact this.2 x hxb

theorem flatten_length_blocks (blocks : List (List Nat))
    (h : ∀ b ∈ blocks, b.length = 16) :
    blocks.flatten.length = 16 * blocks.length := by
  induction blocks with
  | nil => simp
  | cons b bs ih =>
    simp only [List.flatten_cons, List.length_append, List.length_cons,
      h b (by simp), ih (fun x hx => h x (by simp [hx]))]
    ring

/-! ## The cipher engine (`app/core/encryption.py`)

`encrypt_message` and `decrypt_message` wrap every underlying exception in a
generic `Exception(f"... failed: {str(e)}")`.  The embedding returns the
cause of the failure as a `CipherFailure` value; `decryptionErrorMessage`
reproduces the reported message, whose text embeds (and therefore reveals)
the text of the underlying exception. -/

inductive CipherFailure
  | badBase64
  | badKeyLength
  | badIvLength
  | badBlockLength
  | badPadding
  | badUtf8
  deriving DecidableEq, Repr

/-- The message of the underlying library exception for each cause (the
texts produced by `binascii`, the AES/CBC constructors, the CBC context,
the PKCS7 unpadder and the UTF-8 decoder are pairwise distinct). -/
def CipherFailure.text : CipherFailure → String
  | badBase64 => "Invalid base64-encoded string"
  | badKeyLength => "Invalid key size for this algorithm"
  | badIvLength => "Invalid IV size for this mode"
  | badBlockLength => "The length of the provided data is not a multiple of the block length"
  | badPadding => "Invalid padding bytes."
  | badUtf8 => "invalid continuation byte"

def decryptionErrorMessage (e : CipherFailure) : String :=
  "Decryption failed: " ++ e.text

/-- `encrypt_message(message, key)`; the freshly sampled 16-byte IV is an
explicit input. -/
def encrypt_message (C : BlockCipher) (message : List Nat) (key : String)
    (iv : List Nat) : Except CipherFailure (String × String) :=
  match b64Decode key with
  | none => .error .badBase64
  | some keyBytes =>
    if aesKeySizes keyBytes.length then
      if iv.length = 16 then
        let padded := pkcs7Pad (utf8Encode message)
        let ct := (cbcEncBlocks C keyBytes iv (chunkList 16 padded)).flatten
        .ok (b64Encode ct, b64Encode iv)
      else .error .badIvLength
    else .error .badKeyLength

/-- `decrypt_message(encrypted_message, iv, key)`. -/
def decrypt_message (C : BlockCipher) (encryptedMessage iv key : String) :
    Except CipherFailure (List Nat) :=
  match b64Decode key with
  | none => .error .badBase64
  | some keyBytes =>
    match b64Decode encryptedMessage with
    | none => .error .badBase64
    | some encryptedBytes =>
      match b64Decode iv with
      | none => .error .badBase64
      | some ivBytes =>
        if aesKeySizes keyBytes.length then
          if ivBytes.length = 16 then
            if encryptedBytes.length % 16 = 0 then
              match pkcs7Unpad
                  (cbcDecBlocks C keyBytes ivBytes (chunkList 16 encryptedBytes)).flatten with
              | none => .error .badPadding
              | some plain =>
                match utf8Decode plain with
                | none => .error .badUtf8
                | some msg => .ok msg
            else .error .badBlockLength
          else .error .badIvLength
        else .error .badKeyLength

theorem encrypt_message_ok (C : BlockCipher) (message : List Nat) (keyBytes iv : List Nat)
    (hkey : validBytes keyBytes = true) (hklen : aesKeySizes keyBytes.length = true)
    (hiv : validBlock iv = true) :
    encrypt_message C message (b64Encode keyBytes) iv
      = .ok ((b64Encode (cbcEncBlocks C keyBytes iv
          (chunkList 16 (pkcs7Pad (utf8Encode message)))).flatten), b64Encode iv) := by
  have hivlen : iv.length = 16 := by
    simp only [validBlock, Bool.and_eq_true, decide_eq_true_eq] at hiv
    exact hiv.1
  rw [encrypt_message, b64Decode_encode keyBytes hkey]
  simp only [hklen, if_true, hivlen, if_pos rfl]

theorem decrypt_encrypt (C : BlockCipher) (message : List Nat) (keyBytes iv : List Nat)
    (hkey : validBytes keyBytes = true) (hklen : aesKeySizes keyBytes.length = true)
    (hiv : validBlock iv = true) (hmsg : validScalars message = true) :
    decrypt_message C
      (b64Encode (cbcEncBlocks C keyBytes iv
        (chunkList 16 (pkcs7Pad (utf8Encode message)))).flatten)
      (b64Encode iv) (b64Encode keyBytes) = .ok message := by
  have hivlen : iv.length = 16 := by
    simp only [validBlock, Bool.and_eq_true, decide_eq_true_eq] at hiv
    exact hiv.1
  have hivbytes : validBytes iv = true := by
    simp only [validBlock, Bool.and_eq_true] at hiv
    exact hiv.2
  have hpadmod : (pkcs7Pad (utf8Encode message)).length % 16 = 0 :=
    pkcs7Pad_length_mod (utf8Encode message)
  have hpadvalid : validBytes (pkcs7Pad (utf8Encode message)) = true :=
    pkcs7Pad_valid _ (utf8Encode_valid message hmsg)
  have hblocks : ∀ b ∈ chunkList 16 (pkcs7Pad (utf8Encode message)), validBlock b = true :=
    chunkList_valid _ hpadmod hpadvalid
  have hctblocks : ∀ c ∈ cbcEncBlocks C keyBytes iv
      (chunkList 16 (pkcs7Pad (utf8Encode message))), validBlock c = true :=
    cbcEncBlocks_valid C keyBytes _ iv hiv hblocks
  have hctvalid : validBytes (cbcEncBlocks C keyBytes iv
      (chunkList 16 (pkcs7Pad (utf8Encode message)))).flatten = true :=
    flatten_valid _ hctblocks
  have hctlen : ∀ c ∈ cbcEncBlocks C keyBytes iv
      (chunkList 16 (pkcs7Pad (utf8Encode message))), c.length = 16 := by
    intro c hc
    have := hctblocks c hc
    simp only [validBlock, Bool.and_eq_true, decide_eq_true_eq] at this
    exact this.1
  have hctmod : (cbcEncBlocks C keyBytes iv
      (chunkList 16 (pkcs7Pad (utf8Encode message)))).flatten.length % 16 = 0 := by
    rw [flatten_length_blocks _ hctlen]
    omega
  rw [decrypt_message, b64Decode_encode keyBytes hkey, b64Decode_encode _ hctvalid,
    b64Decode_encode iv hivbytes]
  simp only [hklen, if_true, hivlen, if_pos rfl, if_pos hctmod]
  rw [chunkList_flatten_of_blocks _ hctlen,
    cbcDecBlocks_encBlocks C keyBytes (chunkList 16 (pkcs7Pad (utf8Encode message))) iv
      hiv hblocks,
    chunkList_flatten 16 (by omega) (pkcs7Pad (utf8Encode message)),
    pkcs7Unpad_pad (utf8Encode message)]
  simp only [utf8Decode_encode message hmsg]

/-! ## SHA-256 (`hashlib.sha256`)

A byte-level implementation of FIPS 180-4, used by `hash_password` and
`generate_chat_key`.  32-bit words are `Nat` values reduced mod `2 ^ 32`. -/

def w32 (x : Nat) : Nat := x % 4294967296

def rotr32 (n x : Nat) : Nat :=
  w32 ((x >>> n) ||| (x <<< (32 - n)))

def sha256K : List Nat :=
  [1116352408, 1899447441, 3049323471, 3921009573, 961987163,
   1508970993, 2453635748, 2870763221, 3624381080, 310598401,
   607225278, 1426881987, 1925078388, 2162078206, 2614888103,
   3248222580, 3835390401, 4022224774, 264347078, 604807628,
   770255983, 1249150122, 1555081692, 1996064986, 2554220882,
   2821834349, 2952996808, 3210313671, 3336571891, 3584528711,
   113926993, 338241895, 666307205, 773529912, 1294757372,
   1396182291, 1695183700, 1986661051, 2177026350, 2456956037,
   2730485921, 2820302411, 3259730800, 3345764771, 3516065817,
   3600352804, 4094571909, 275423344, 430227734, 506948616,
   659060556, 883997877, 958139571, 1322822218, 1537002063,
   1747873779, 1955562222, 2024104815, 2227730452, 2361852424,
   2428436474, 2756734187, 3204031479, 3329325298]

def sha256H0 : List Nat :=
  [1779033703, 3144134277, 1013904242, 2773480762, 1359893119,
   2600822924, 528734635, 1541459225]

def sha256Pad (msg : List Nat) : List Nat :=
  let L := msg.length
  let k := (119 - L % 64) % 64
  let bits := 8 * L
  msg ++ [0x80] ++ List.replicate k 0 ++
    [w32 (bits >>> 56) % 256, (bits >>> 48) % 256, (bits >>> 40) % 256, (bits >>> 32) % 256,
     (bits >>> 24) % 256, (bits >>> 16) % 256, (bits >>> 8) % 256, bits % 256]

def bytesToWords : List Nat → List Nat
  | a :: b :: c :: d :: rest => (((a * 256 + b) * 256 + c) * 256 + d) :: bytesToWords rest
  | _ => []

def ssig0 (x : Nat) : Nat := (rotr32 7 x) ^^^ (rotr32 18 x) ^^^ (x >>> 3)
def ssig1 (x : Nat) : Nat := (rotr32 17 x) ^^^ (rotr32 19 x) ^^^ (x >>> 10)
def bsig0 (x : Nat) : Nat := (rotr32 2 x) ^^^ (rotr32 13 x) ^^^ (rotr32 22 x)
def bsig1 (x : Nat) : Nat := (rotr32 6 x) ^^^ (rotr32 11 x) ^^^ (rotr32 25 x)
def chfn (x y z : Nat) : Nat := (x &&& y) ^^^ ((x ^^^ 0xFFFFFFFF) &&& z)
def majfn (x y z : Nat) : Nat := (x &&& y) ^^^ (x &&& z) ^^^ (y &&& z)

/-- Extend the 16 message-schedule words to 64. -/
def sha256Schedule (w16 : List Nat) : List Nat :=
  (List.range 48).foldl
    (fun w _ =>
      w ++ [w32 (ssig1 (w.getD (w.length - 2) 0) + w.getD (w.length - 7) 0 +
        ssig0 (w.getD (w.length - 15) 0) + w.getD (w.length - 16) 0)])
    w16

def sha256Round (st : List Nat) (kw : Nat × Nat) : List Nat :=
  match st with
  | [a, b, c, d, e, f, g, h] =>
    let t1 := w32 (h + bsig1 e + chfn e f g + kw.1 + kw.2)
    let t2 := w32 (bsig0 a + majfn a b c)
    [w32 (t1 + t2), a, b, c, w32 (d + t1), e, f, g]
  | _ => st

def sha256Block (hv : List Nat) (block : List Nat) : List Nat :=
  let ws := sha256Schedule (bytesToWords block)
  let st := (sha256K.zip ws).foldl sha256Round hv
  List.zipWith (fun x y => w32 (x + y)) hv st

def sha256 (msg : List Nat) : List Nat :=
  let hv := (chunkList 64 (sha256Pad msg)).foldl sha256Block sha256H0
  hv.flatMap (fun w => [(w >>> 24) % 256, (w >>> 16) % 256, (w >>> 8) % 256, w % 256])

def hexDigit (n : Nat) : Char :=
  Char.ofNat (if n < 10 then 48 + n else 87 + n)

/-- Lowercase hex digest of a byte string (`hexdigest()`). -/
def hexDigest (bs : List Nat) : String :=
  String.mk (bs.flatMap (fun b => [hexDigit (b / 16), hexDigit (b % 16)]))


/-! ## Key derivation and password hashing -/

/-- `generate_chat_key(user_pin1, user_pin2)` =
`base64(SHA256(f"{user_pin1}{user_pin2}".encode()))`. -/
def generate_chat_key (userPin1 userPin2 : String) : String :=
  b64Encode (sha256 (utf8Encode ((userPin1 ++ userPin2).data.map Char.toNat)))

/-- `AuthService.hash_password`: SHA-256 hex digest of the UTF-8 password. -/
def hash_password (password : String) : String :=
  hexDigest (sha256 (utf8Encode (password.data.map Char.toNat)))

/-! ## Tokens (`app/core/security.py`)

`settings.ACCESS_TOKEN_EXPIRE_MINUTES = 60 * 24 * 7`.  The HMAC signature of
`jwt.encode` is modelled by recording the signing secret inside the token;
`jwt.decode` checks the signature (here: the recorded secret equals the
verifier's secret) and the expiry, and collapses both failures into `None`.
`create_jwt_token` reads `datetime.utcnow()` twice — once for `exp`, once
for `iat`; both readings are explicit inputs, and the service layer below
passes the single request timestamp for both. -/

def ACCESS_TOKEN_EXPIRE_MINUTES : Nat := 60 * 24 * 7

structure JwtPayload where
  user_id : String
  exp : Nat
  iat : Nat
  deriving DecidableEq, Repr

structure Jwt where
  payload : JwtPayload
  secret : String
  deriving DecidableEq, Repr

def create_jwt_token (user_id : String) (nowExp nowIat : Nat) (secret : String) : Jwt :=
  ⟨⟨user_id, nowExp + ACCESS_TOKEN_EXPIRE_MINUTES, nowIat⟩, secret⟩

def verify_jwt_token (t : Jwt) (secret : String) (now : Nat) : Option JwtPayload :=
  if t.secret = secret ∧ now < t.payload.exp then some t.payload else none

/-! ## Database state (`users`, `verification_codes`, `chats`)

Rows in insertion order; `nextUserId` models the id generator of the
`users` table (`RETURNING id`). -/

structure User where
  id : Nat
  email : String
  password : String
  display_name : String
  user_pin : String
  is_verified : Bool
  deriving DecidableEq, Repr

structure VCode where
  user_id : Nat
  code : String
  expires_at : Nat
  used : Bool
  created_at : Nat
  deriving DecidableEq, Repr

structure DB where
  users : List User
  codes : List VCode
  nextUserId : Nat
  deriving DecidableEq, Repr

structure HTTPError where
  status : Nat
  detail : String
  deriving DecidableEq, Repr

/-! ## The auth service (`app/services/auth_service.py`) -/

structure RegisterResponse where
  message : String
  user_pin : String
  email : String
  verification_code : Option String
  deriving DecidableEq, Repr

structure TokenResponse where
  access_token : Jwt
  token_type : String
  user_id : String
  email : String
  display_name : String
  user_pin : String
  deriving DecidableEq, Repr

/-- `register_user`.  The generated PIN and verification code are explicit
inputs; the code expires 24 hours after `now`. -/
def register_user (db : DB) (email password displayName : String)
    (pin code : String) (now : Nat) : Except HTTPError (DB × RegisterResponse) :=
  if db.users.any (fun u => u.email == email) then
    .error ⟨400, "Email already registered"⟩
  else
    let uid := db.nextUserId
    let db2 : DB :=
      { users := db.users ++ [⟨uid, email, hash_password password, displayName, pin, false⟩]
        codes := db.codes ++ [⟨uid, code, now + 24 * 60, false, now⟩]
        nextUserId := uid + 1 }
    .ok (db2, ⟨"Registration successful. Please verify your email.", pin, email, some code⟩)

/-- The rows of the `users u JOIN verification_codes vc` query filtered by
`u.email = email AND vc.code = code AND vc.used = FALSE` (each row is
represented by its code; the joined user is `vc.user_id`). -/
def matchingCodes (db : DB) (email code : String) : List VCode :=
  db.codes.filter (fun vc => vc.code == code && !vc.used &&
    db.users.any (fun u => u.id == vc.user_id && u.email == email))

/-- `ORDER BY vc.created_at DESC LIMIT 1`: the row with the greatest
`created_at` (the last such row on ties). -/
def newestCode (l : List VCode) : Option VCode :=
  l.foldl
    (fun acc c =>
      match acc with
      | none => some c
      | some a => if a.created_at ≤ c.created_at then some c else some a)
    none

/-- `verify_user(verify_data)`. -/
def verify_user (db : DB) (email code : String) (now : Nat) (secret : String) :
    Except HTTPError (DB × TokenResponse) :=
  match newestCode (matchingCodes db email code) with
  | none => .error ⟨400, "Invalid verification code"⟩
  | some vc =>
    if now > vc.expires_at then
      .error ⟨400, "Verification code expired"⟩
    else
      match db.users.find? (fun u => u.id == vc.user_id && u.email == email) with
      | none => .error ⟨500, "Verification failed"⟩
      | some u =>
        let db2 : DB :=
          { db with
            codes := db.codes.map (fun x =>
              if x.code == code && x.user_id == vc.user_id then { x with used := true } else x)
            users := db.users.map (fun x =>
              if x.id == vc.user_id then { x with is_verified := true } else x) }
        .ok (db2,
          { access_token := create_jwt_token (toString vc.user_id) now now secret
            token_type := "bearer"
            user_id := toString vc.user_id
            email := u.email
            display_name := u.display_name
            user_pin := u.user_pin })

/-- `login_user(login_data)`. -/
def login_user (db : DB) (email password : String) (now : Nat) (secret : String) :
    Except HTTPError TokenResponse :=
  match db.users.find? (fun u => u.email == email) with
  | none => .error ⟨404, "User not found"⟩
  | some user =>
    if user.password ≠ hash_password password then
      .error ⟨401, "Invalid credentials"⟩
    else if !user.is_verified then
      .error ⟨400, "Please verify your email first"⟩
    else
      .ok
        { access_token := create_jwt_token (toString user.id) now now secret
          token_type := "bearer"
          user_id := toString user.id
          email := user.email
          display_name := user.display_name
          user_pin := user.user_pin }

structure ResetRequestResponse where
  message : String
  reset_code : Option String
  deriving DecidableEq, Repr

/-- `reset_password_request(email)`; the generated reset code is an explicit
input and expires 1 hour after `now`. -/
def reset_password_request (db : DB) (email code : String) (now : Nat) :
    DB × ResetRequestResponse :=
  match db.users.find? (fun u => u.email == email) with
  | none => (db, ⟨"If the email exists, a reset code has been sent", none⟩)
  | some user =>
    ({ db with codes := db.codes ++ [⟨user.id, code, now + 60, false, now⟩] },
     ⟨"If the email exists, a reset code has been sent", some code⟩)

/-- `reset_password_confirm(email, reset_code, new_password)`.  Note the
code-invalidation `UPDATE` filters on `code = $1` alone. -/
def reset_password_confirm (db : DB) (email resetCode newPassword : String) (now : Nat) :
    Except HTTPError (DB × String) :=
  match newestCode (matchingCodes db email resetCode) with
  | none => .error ⟨400, "Invalid reset code"⟩
  | some vc =>
    if now > vc.expires_at then
      .error ⟨400, "Reset code expired"⟩
    else
      let db2 : DB :=
        { db with
          codes := db.codes.map (fun x =>
            if x.code == resetCode then { x with used := true } else x)
          users := db.users.map (fun x =>
            if x.id == vc.user_id then { x with password := hash_password newPassword } else x) }
      .ok (db2, "Password reset successfully")

/-! ## The chat service (`app/services/chat_service.py`)

`start_chat` performs a lookup (`SELECT ... WHERE (user1_id, user2_id) in
either order`) and then, if nothing was found, an `INSERT`.  The atomic
`start_chat` below chains the two phases `startChatLookup` and
`startChatFinish`; an interleaved execution of two requests is modelled by
running the phases against the states each request actually observes. -/

structure Chat where
  id : String
  user1_id : String
  user2_id : String
  deriving DecidableEq, Repr

structure StartChatResult where
  chat_id : String
  is_new : Bool
  message : String
  deriving DecidableEq, Repr

def chatMatches (c : Chat) (u1 u2 : String) : Bool :=
  (c.user1_id == u1 && c.user2_id == u2) || (c.user1_id == u2 && c.user2_id == u1)

def startChatLookup (chats : List Chat) (u1 u2 : String) : Option Chat :=
  chats.find? (fun c => chatMatches c u1 u2)

def startChatFinish (chats : List Chat) (found : Option Chat) (u1 u2 newId : String) :
    List Chat × StartChatResult :=
  match found with
  | some c => (chats, ⟨c.id, false, "Chat already exists"⟩)
  | none => (chats ++ [⟨newId, u1, u2⟩], ⟨newId, true, "New chat created"⟩)

def start_chat (chats : List Chat) (u1 u2 newId : String) :
    Except HTTPError (List Chat × StartChatResult) :=
  if u1 = u2 then .error ⟨400, "Cannot start chat with yourself"⟩
  else .ok (startChatFinish chats (startChatLookup chats u1 u2) u1 u2 newId)


/-! ## Claim theorems -/

/-- C5: `login_user` fails with 404 "User not found" (the spec's `NotFound`)
when no user has the email; with 401 "Invalid credentials" (`Unauthorized`)
when the stored hash differs from the hash of the supplied password; with
400 "Please verify your email first" (`PreconditionFailed`) when the user
exists, the password hash matches, but the user is not verified — in
particular a registered-but-unverified user with the correct password gets
exactly this failure; and otherwise returns a minted token plus the user's
profile. -/
theorem c5_login_spec (db : DB) (email password : String) (now : Nat) (secret : String) :
    (db.users.find? (fun u => u.email == email) = none →
      login_user db email password now secret = .error ⟨404, "User not found"⟩)
    ∧ (∀ u, db.users.find? (fun u => u.email == email) = some u →
        u.password ≠ hash_password password →
        login_user db email password now secret = .error ⟨401, "Invalid credentials"⟩)
    ∧ (∀ u, db.users.find? (fun u => u.email == email) = some u →
        u.password = hash_password password → u.is_verified = false →
        login_user db email password now secret
          = .error ⟨400, "Please verify your email first"⟩)
    ∧ (∀ u, db.users.find? (fun u => u.email == email) = some u →
        u.password = hash_password password → u.is_verified = true →
        login_user db email password now secret
          = .ok ⟨create_jwt_token (toString u.id) now now secret, "bearer",
              toString u.id, u.email, u.display_name, u.user_pin⟩) := by
  refine ⟨?_, ?_, ?_, ?_⟩
  · intro h
    rw [login_user, h]
  · intro u hu hpw
    rw [login_user, hu]
    simp only [if_pos hpw]
  · intro u hu hpw hver
    rw [login_user, hu]
    simp only [hpw, ne_eq, not_true_eq_false, if_false, hver, Bool.not_false, if_pos]
  · intro u hu hpw hver
    rw [login_user, hu]
    simp only [hpw, ne_eq, not_true_eq_false, if_false, hver, Bool.not_true, Bool.false_eq_true,
      if_false]

/-- Witness for C5 at a concrete store: a registered-but-unverified user
supplying the correct password is rejected with 400 "Please verify your
email first". -/
theorem c5_login_witness :
    login_user ⟨[⟨0, "a@x.com", hash_password "pw", "Ann", "K3F9ZQ", false⟩], [], 1⟩
      "a@x.com" "pw" 5 "topsecret" = .error ⟨400, "Please verify your email first"⟩ :=
  (c5_login_spec ⟨[⟨0, "a@x.com", hash_password "pw", "Ann", "K3F9ZQ", false⟩], [], 1⟩
    "a@x.com" "pw" 5 "topsecret").2.2.1
    ⟨0, "a@x.com", hash_password "pw", "Ann", "K3F9ZQ", false⟩ rfl rfl rfl


theorem newestCode_foldl_mem (l : List VCode) :
    ∀ (acc : Option VCode) (x : VCode),
      l.foldl
        (fun acc c =>
          match acc with
          | none => some c
          | some a => if a.created_at ≤ c.created_at then some c else some a)
        acc = some x → x ∈ l ∨ acc = some x := by
  induction l with
  | nil => intro acc x h; exact Or.inr h
  | cons c cs ih =>
    intro acc x h
    rcases ih _ x h with hmem | hacc
    · exact Or.inl (by simp [hmem])
    · match acc, hacc with
      | none, hacc =>
        simp only at hacc
        exact Or.inl (by simp [Option.some.inj hacc])
      | some a, hacc =>
        simp only at hacc
        split at hacc
        · exact Or.inl (by simp [Option.some.inj hacc])
        · exact Or.inr hacc

theorem newestCode_mem (l : List VCode) (x : VCode) (h : newestCode l = some x) : x ∈ l := by
  rcases newestCode_foldl_mem l none x h with hm | hacc
  · exact hm
  · exact absurd hacc (by simp)

theorem mem_matchingCodes (db : DB) (email code : String) (vc : VCode)
    (h : vc ∈ matchingCodes db email code) :
    vc ∈ db.codes ∧ vc.code = code ∧ vc.used = false ∧
      ∃ u ∈ db.users, u.id = vc.user_id ∧ u.email = email := by
  rw [matchingCodes, List.mem_filter] at h
  obtain ⟨hmem, hcond⟩ := h
  simp only [Bool.and_eq_true, beq_iff_eq, Bool.not_eq_true', List.any_eq_true] at hcond
  obtain ⟨⟨hcode, hused⟩, u, hu, hcondu⟩ := hcond
  have h2 : u.id = vc.user_id ∧ u.email = email := by simpa using hcondu
  exact ⟨hmem, hcode, hused, u, hu, h2.1, h2.2⟩

/-- C4: `verify_user` selects the newest unused matching code of the user of
the email; it fails with 400 "Invalid verification code" (the spec's
`NotFound`) when no unused code matches — in particular a used code is never
selected — fails with 400 "Verification code expired" (`Expired`) when the
newest match has expired even though it is unused, and on success marks the
selected code value used for that user, sets `is_verified`, and returns a
token plus the public profile. -/
theorem c4_verify_user_spec (db : DB) (email code : String) (now : Nat) (secret : String) :
    (newestCode (matchingCodes db email code) = none →
      verify_user db email code now secret = .error ⟨400, "Invalid verification code"⟩)
    ∧ (∀ vc ∈ db.codes, vc.used = true → vc ∉ matchingCodes db email code)
    ∧ (∀ vc, newestCode (matchingCodes db email code) = some vc →
        vc ∈ db.codes ∧ vc.code = code ∧ vc.used = false)
    ∧ (∀ vc, newestCode (matchingCodes db email code) = some vc → now > vc.expires_at →
        verify_user db email code now secret = .error ⟨400, "Verification code expired"⟩)
    ∧ (∀ vc, newestCode (matchingCodes db email code) = some vc → ¬ now > vc.expires_at →
        ∃ u, db.users.find? (fun w => w.id == vc.user_id && w.email == email) = some u
          ∧ u.email = email ∧ u.id = vc.user_id
          ∧ verify_user db email code now secret = .ok
              (⟨db.users.map (fun x =>
                  if x.id == vc.user_id then { x with is_verified := true } else x),
                db.codes.map (fun x =>
                  if x.code == code && x.user_id == vc.user_id then { x with used := true }
                  else x),
                db.nextUserId⟩,
               ⟨create_jwt_token (toString vc.user_id) now now secret, "bearer",
                 toString vc.user_id, u.email, u.display_name, u.user_pin⟩)) := by
  refine ⟨?_, ?_, ?_, ?_, ?_⟩
  · intro h
    rw [verify_user, h]
  · intro vc _ hused hmem
    have := (mem_matchingCodes db email code vc hmem).2.2.1
    rw [hused] at this
    exact Bool.true_eq_false.mp this
  · intro vc h
    have hmem := newestCode_mem _ _ h
    have := mem_matchingCodes db email code vc hmem
    exact ⟨this.1, this.2.1, this.2.2.1⟩
  · intro vc h hexp
    rw [verify_user, h]
    simp only [if_pos hexp]
  · intro vc h hexp
    have hmem := newestCode_mem _ _ h
    obtain ⟨_, _, _, u0, hu0, hid0, hem0⟩ := mem_matchingCodes db email code vc hmem
    have hsome : (db.users.find? (fun w => w.id == vc.user_id && w.email == email)).isSome := by
      rw [List.find?_isSome]
      exact ⟨u0, hu0, by simp [hid0, hem0]⟩
    obtain ⟨u, hu⟩ := Option.isSome_iff_exists.mp hsome
    have hp := List.find?_some hu
    simp only [Bool.and_eq_true, beq_iff_eq] at hp
    refine ⟨u, hu, hp.2, hp.1, ?_⟩
    rw [verify_user, h]
    simp only [if_neg hexp]
    rw [hu]

/-- Witness for C4 at a concrete store: the single outstanding unexpired
code verifies, is marked used, and the user becomes verified. -/
theorem c4_verify_user_witness :
    ¬ (5 : Nat) > 1440 ∧
    ∃ u, ((⟨[⟨0, "a@x.com", "h", "Ann", "K3F9ZQ", false⟩],
          [⟨0, "482913", 1440, false, 0⟩], 1⟩ : DB)).users.find?
            (fun w => w.id == (0 : Nat) && w.email == "a@x.com") = some u
      ∧ u.email = "a@x.com" ∧ u.id = 0
      ∧ verify_user ⟨[⟨0, "a@x.com", "h", "Ann", "K3F9ZQ", false⟩],
          [⟨0, "482913", 1440, false, 0⟩], 1⟩ "a@x.com" "482913" 5 "topsecret" = .ok
          (⟨[⟨0, "a@x.com", "h", "Ann", "K3F9ZQ", false⟩].map (fun x =>
              if x.id == (0 : Nat) then { x with is_verified := true } else x),
            [⟨0, "482913", 1440, false, 0⟩].map (fun x =>
              if x.code == "482913" && x.user_id == (0 : Nat) then { x with used := true }
              else x),
            1⟩,
           ⟨create_jwt_token (toString (0 : Nat)) 5 5 "topsecret", "bearer",
             toString (0 : Nat), u.email, u.display_name, u.user_pin⟩) :=
  ⟨by decide,
    (c4_verify_user_spec ⟨[⟨0, "a@x.com", "h", "Ann", "K3F9ZQ", false⟩],
        [⟨0, "482913", 1440, false, 0⟩], 1⟩ "a@x.com" "482913" 5 "topsecret").2.2.2.2
      ⟨0, "482913", 1440, false, 0⟩ (by decide) (by decide)⟩

/-- C10: on a successful `reset_password_confirm`, the code-invalidation
update filters on the code value alone, so every stored code whose value
equals the supplied code is marked used — codes of other users included —
while exactly the matched user's password hash is overwritten and every
other user row is unchanged. -/
theorem c10_reset_confirm_frame (db : DB) (email resetCode newPassword : String)
    (now : Nat) (vc : VCode)
    (hsel : newestCode (matchingCodes db email resetCode) = some vc)
    (hexp : ¬ now > vc.expires_at) :
    reset_password_confirm db email resetCode newPassword now
      = .ok (⟨db.users.map (fun x =>
            if x.id == vc.user_id then { x with password := hash_password newPassword }
            else x),
          db.codes.map (fun x =>
            if x.code == resetCode then { x with used := true } else x),
          db.nextUserId⟩, "Password reset successfully")
    ∧ (∀ x ∈ db.codes, x.code = resetCode →
        { x with used := true }
          ∈ db.codes.map (fun x => if x.code == resetCode then { x with used := true } else x))
    ∧ (∀ x ∈ db.users, x.id ≠ vc.user_id →
        x ∈ db.users.map (fun x =>
          if x.id == vc.user_id then { x with password := hash_password newPassword }
          else x)) := by
  refine ⟨?_, ?_, ?_⟩
  · rw [reset_password_confirm, hsel]
    simp only [if_neg hexp]
  · intro x hx hcode
    rw [List.mem_map]
    exact ⟨x, hx, by simp [hcode]⟩
  · intro x hx hid
    rw [List.mem_map]
    exact ⟨x, hx, by simp [hid]⟩

/-- Witness for C10 at a concrete store: both users hold an unused code with
the same value; confirming the reset for the first user marks both users'
codes used (the second user's code included) and rewrites only the first
user's password hash. -/
theorem c10_reset_confirm_witness :
    newestCode (matchingCodes ⟨[⟨0, "a@x.com", "h0", "Ann", "AAAAAA", true⟩,
        ⟨1, "b@x.com", "h1", "Bob", "BBBBBB", true⟩],
        [⟨0, "123456", 100, false, 0⟩, ⟨1, "123456", 100, false, 1⟩], 2⟩
        "a@x.com" "123456") = some ⟨0, "123456", 100, false, 0⟩
    ∧ ¬ (5 : Nat) > 100
    ∧ reset_password_confirm ⟨[⟨0, "a@x.com", "h0", "Ann", "AAAAAA", true⟩,
          ⟨1, "b@x.com", "h1", "Bob", "BBBBBB", true⟩],
          [⟨0, "123456", 100, false, 0⟩, ⟨1, "123456", 100, false, 1⟩], 2⟩
          "a@x.com" "123456" "newpw" 5
        = .ok (⟨[⟨0, "a@x.com", "h0", "Ann", "AAAAAA", true⟩,
              ⟨1, "b@x.com", "h1", "Bob", "BBBBBB", true⟩].map (fun x =>
                if x.id == (0 : Nat) then { x with password := hash_password "newpw" }
                else x),
            [⟨0, "123456", 100, false, 0⟩, ⟨1, "123456", 100, false, 1⟩].map (fun x =>
              if x.code == "123456" then { x with used := true } else x),
            2⟩, "Password reset successfully")
    ∧ ([⟨0, "123456", 100, false, 0⟩, ⟨1, "123456", 100, false, 1⟩].map (fun x =>
          if x.code == "123456" then { x with used := true } else x) : List VCode)
        = [⟨0, "123456", 100, true, 0⟩, ⟨1, "123456", 100, true, 1⟩] :=
  ⟨by decide, by decide,
    (c10_reset_confirm_frame ⟨[⟨0, "a@x.com", "h0", "Ann", "AAAAAA", true⟩,
        ⟨1, "b@x.com", "h1", "Bob", "BBBBBB", true⟩],
        [⟨0, "123456", 100, false, 0⟩, ⟨1, "123456", 100, false, 1⟩], 2⟩
        "a@x.com" "123456" "newpw" 5 ⟨0, "123456", 100, false, 0⟩
        (by decide) (by decide)).1,
    by decide⟩

/-- C1: for every UTF-8 text and every valid 256-bit base64-encoded key,
decrypting the encryption returns the original text; and two encryptions of
the same `(message, key)` under distinct 128-bit IVs (the code samples a
fresh random IV per call, modelled here as the IV input) never produce the
same `(ciphertext, iv)` pair. -/
theorem c1_encrypt_decrypt_roundtrip (C : BlockCipher) (message : List Nat)
    (keyBytes iv1 iv2 : List Nat)
    (hkey : validBytes keyBytes = true) (hklen : keyBytes.length = 32)
    (hiv1 : validBlock iv1 = true) (hiv2 : validBlock iv2 = true)
    (hmsg : validScalars message = true) (hne : iv1 ≠ iv2) :
    (∃ ct ivB64, encrypt_message C message (b64Encode keyBytes) iv1 = .ok (ct, ivB64))
    ∧ (∀ ct ivB64, encrypt_message C message (b64Encode keyBytes) iv1 = .ok (ct, ivB64) →
        decrypt_message C ct ivB64 (b64Encode keyBytes) = .ok message)
    ∧ encrypt_message C message (b64Encode keyBytes) iv1
        ≠ encrypt_message C message (b64Encode keyBytes) iv2 := by
  have hks : aesKeySizes keyBytes.length = true := by
    rw [hklen]
    decide
  have henc1 := encrypt_message_ok C message keyBytes iv1 hkey hks hiv1
  have henc2 := encrypt_message_ok C message keyBytes iv2 hkey hks hiv2
  refine ⟨⟨_, _, henc1⟩, ?_, ?_⟩
  · intro ct ivB64 h
    rw [henc1] at h
    injection h with h
    injection h with h1 h2
    rw [← h1, ← h2]
    exact decrypt_encrypt C message keyBytes iv1 hkey hks hiv1 hmsg
  · intro hcontra
    rw [henc1, henc2] at hcontra
    injection hcontra with h
    injection h with h1 h2
    have hb1 : validBytes iv1 = true := by
      simp only [validBlock, Bool.and_eq_true] at hiv1
      exact hiv1.2
    have hb2 : validBytes iv2 = true := by
      simp only [validBlock, Bool.and_eq_true] at hiv2
      exact hiv2.2
    exact hne (b64Encode_injOn iv1 iv2 hb1 hb2 h2)

/-- Witness for C1 at concrete inputs: a 32-byte key, the message "hi"
(scalars 104, 105) and two distinct IVs, under the concrete block-cipher
instance. -/
theorem c1_encrypt_decrypt_witness :
    validBytes (List.replicate 32 7) = true
    ∧ (List.replicate 32 7).length = 32
    ∧ validBlock (List.replicate 16 0) = true
    ∧ validBlock (1 :: List.replicate 15 0) = true
    ∧ validScalars [104, 105] = true
    ∧ List.replicate 16 0 ≠ 1 :: List.replicate 15 0
    ∧ ((∃ ct ivB64, encrypt_message idBlockCipher [104, 105]
          (b64Encode (List.replicate 32 7)) (List.replicate 16 0) = .ok (ct, ivB64))
      ∧ (∀ ct ivB64, encrypt_message idBlockCipher [104, 105]
            (b64Encode (List.replicate 32 7)) (List.replicate 16 0) = .ok (ct, ivB64) →
          decrypt_message idBlockCipher ct ivB64 (b64Encode (List.replicate 32 7))
            = .ok [104, 105])
      ∧ encrypt_message idBlockCipher [104, 105] (b64Encode (List.replicate 32 7))
            (List.replicate 16 0)
          ≠ encrypt_message idBlockCipher [104, 105] (b64Encode (List.replicate 32 7))
            (1 :: List.replicate 15 0)) :=
  ⟨by decide, by decide, by decide, by decide, by decide, by decide,
    c1_encrypt_decrypt_roundtrip idBlockCipher [104, 105] (List.replicate 32 7)
      (List.replicate 16 0) (1 :: List.replicate 15 0)
      (by decide) (by decide) (by decide) (by decide) (by decide) (by decide)⟩

/-- C2 counterexample: the chat-key derivation hashes the ordered
concatenation of the two PINs, so swapping distinct PINs changes the key:
`derive("A", "B") ≠ derive("B", "A")`. -/
theorem c2_chat_key_not_symmetric :
    generate_chat_key "A" "B" ≠ generate_chat_key "B" "A" := by
  decide

/-- C2 (amended): the chat-key derivation is a deterministic function of the
ordered concatenation of the two PIN strings, so it is symmetric exactly on
those PIN pairs whose two concatenations coincide (equal PINs in
particular); for other pairs the two orders derive different keys. -/
theorem c2_chat_key_symmetric_iff (pinA pinB : String)
    (h : pinA ++ pinB = pinB ++ pinA) :
    generate_chat_key pinA pinB = generate_chat_key pinB pinA := by
  rw [generate_chat_key, generate_chat_key, h]

/-- Witness for C2 (amended) at equal concrete PINs. -/
theorem c2_chat_key_witness :
    ("K3F9ZQ" : String) ++ "K3F9ZQ" = "K3F9ZQ" ++ "K3F9ZQ"
    ∧ generate_chat_key "K3F9ZQ" "K3F9ZQ" = generate_chat_key "K3F9ZQ" "K3F9ZQ" :=
  ⟨rfl, c2_chat_key_symmetric_iff "K3F9ZQ" "K3F9ZQ" rfl⟩


/-- Well-formed store: every stored id is below the id generator. -/
def wfDB (db : DB) : Prop :=
  (∀ u ∈ db.users, u.id < db.nextUserId) ∧ (∀ c ∈ db.codes, c.user_id < db.nextUserId)

/-- C3: registering a fresh email and then verifying with the issued code
before its 24-hour expiry succeeds; the returned token carries the
registered user's id, its embedded expiry equals its issue time plus 7 days
(10080 minutes), and `verify_jwt_token` accepts it (resolving to that same
payload) at any instant before the expiry. -/
theorem c3_register_then_verify
    (db : DB) (email password displayName pin code secret : String)
    (t0 t1 t2 : Nat)
    (hwf : wfDB db)
    (hfresh : ∀ u ∈ db.users, u.email ≠ email)
    (hexp : ¬ t1 > t0 + 24 * 60) :
    ∃ db1 resp,
      register_user db email password displayName pin code t0 = .ok (db1, resp)
      ∧ ∃ db2 tok, verify_user db1 email code t1 secret = .ok (db2, tok)
        ∧ tok.user_id = toString db.nextUserId
        ∧ tok.access_token.payload.user_id = toString db.nextUserId
        ∧ tok.access_token.payload.iat = t1
        ∧ tok.access_token.payload.exp = tok.access_token.payload.iat + 7 * 24 * 60
        ∧ (t2 < tok.access_token.payload.exp →
            verify_jwt_token tok.access_token secret t2
              = some tok.access_token.payload) := by
  obtain ⟨hwfu, hwfc⟩ := hwf
  have hany : db.users.any (fun u => u.email == email) = false := by
    apply Bool.eq_false_iff.mpr
    intro hcon
    obtain ⟨u, hu, hbeq⟩ := List.any_eq_true.mp hcon
    exact hfresh u hu (by simpa using hbeq)
  have hreg : register_user db email password displayName pin code t0
      = .ok (⟨db.users ++ [⟨db.nextUserId, email, hash_password password, displayName,
          pin, false⟩],
        db.codes ++ [⟨db.nextUserId, code, t0 + 24 * 60, false, t0⟩],
        db.nextUserId + 1⟩,
        ⟨"Registration successful. Please verify your email.", pin, email, some code⟩) := by
    rw [register_user]
    simp only [hany, Bool.false_eq_true, if_false]
  refine ⟨_, _, hreg, ?_⟩
  have hpold : ∀ vc ∈ db.codes,
      (vc.code == code && !vc.used &&
        (db.users ++ [(⟨db.nextUserId, email, hash_password password, displayName,
            pin, false⟩ : User)]).any
          (fun u => u.id == vc.user_id && u.email == email)) = false := by
    intro vc hvc
    have hanyf : (db.users ++ [(⟨db.nextUserId, email, hash_password password, displayName,
        pin, false⟩ : User)]).any (fun u => u.id == vc.user_id && u.email == email)
        = false := by
      apply Bool.eq_false_iff.mpr
      intro hcon
      obtain ⟨u, hu, hq⟩ := List.any_eq_true.mp hcon
      rw [List.mem_append] at hu
      simp only [Bool.and_eq_true, beq_iff_eq] at hq
      rcases hu with hu | hu
      · exact hfresh u hu hq.2
      · simp only [List.mem_singleton] at hu
        subst hu
        simp only at hq
        have := hwfc vc hvc
        omega
    rw [hanyf, Bool.and_false]
  have hmatch : matchingCodes ⟨db.users ++ [⟨db.nextUserId, email, hash_password password,
      displayName, pin, false⟩],
      db.codes ++ [⟨db.nextUserId, code, t0 + 24 * 60, false, t0⟩],
      db.nextUserId + 1⟩ email code = [⟨db.nextUserId, code, t0 + 24 * 60, false, t0⟩] := by
    rw [matchingCodes]
    rw [show (⟨db.users ++ [⟨db.nextUserId, email, hash_password password, displayName,
        pin, false⟩],
        db.codes ++ [⟨db.nextUserId, code, t0 + 24 * 60, false, t0⟩],
        db.nextUserId + 1⟩ : DB).codes
      = db.codes ++ [⟨db.nextUserId, code, t0 + 24 * 60, false, t0⟩] from rfl]
    rw [List.filter_append]
    have h1 : db.codes.filter (fun vc => vc.code == code && !vc.used &&
        (⟨db.users ++ [⟨db.nextUserId, email, hash_password password, displayName,
            pin, false⟩],
          db.codes ++ [⟨db.nextUserId, code, t0 + 24 * 60, false, t0⟩],
          db.nextUserId + 1⟩ : DB).users.any
          (fun u => u.id == vc.user_id && u.email == email)) = [] := by
      rw [List.filter_eq_nil_iff]
      intro vc hvc
      rw [show (⟨db.users ++ [⟨db.nextUserId, email, hash_password password, displayName,
          pin, false⟩],
          db.codes ++ [⟨db.nextUserId, code, t0 + 24 * 60, false, t0⟩],
          db.nextUserId + 1⟩ : DB).users
        = db.users ++ [⟨db.nextUserId, email, hash_password password, displayName,
            pin, false⟩] from rfl]
      rw [hpold vc hvc]
      simp
    rw [h1, List.nil_append]
    simp [beq_self_eq_true]
  have hfind : (db.users ++ [(⟨db.nextUserId, email, hash_password password, displayName,
      pin, false⟩ : User)]).find?
      (fun w => w.id == db.nextUserId && w.email == email)
      = some ⟨db.nextUserId, email, hash_password password, displayName, pin, false⟩ := by
    rw [List.find?_append]
    have hnone : db.users.find? (fun w => w.id == db.nextUserId && w.email == email)
        = none := by
      rw [List.find?_eq_none]
      intro u hu
      simp only [Bool.and_eq_true, beq_iff_eq, not_and]
      intro hid
      have := hwfu u hu
      omega
    rw [hnone]
    simp
  have hver : verify_user ⟨db.users ++ [⟨db.nextUserId, email, hash_password password,
      displayName, pin, false⟩],
      db.codes ++ [⟨db.nextUserId, code, t0 + 24 * 60, false, t0⟩],
      db.nextUserId + 1⟩ email code t1 secret
      = .ok (⟨(db.users ++ [(⟨db.nextUserId, email, hash_password password,
            displayName, pin, false⟩ : User)]).map (fun (x : User) =>
              if x.id == db.nextUserId then { x with is_verified := true } else x),
          (db.codes ++ [(⟨db.nextUserId, code, t0 + 24 * 60, false, t0⟩ : VCode)]).map
            (fun (x : VCode) =>
              if x.code == code && x.user_id == db.nextUserId then { x with used := true }
              else x),
          db.nextUserId + 1⟩,
        ⟨create_jwt_token (toString db.nextUserId) t1 t1 secret, "bearer",
          toString db.nextUserId, email, displayName, pin⟩) := by
    rw [verify_user, hmatch]
    rw [show newestCode [(⟨db.nextUserId, code, t0 + 24 * 60, false, t0⟩ : VCode)]
      = some ⟨db.nextUserId, code, t0 + 24 * 60, false, t0⟩ from rfl]
    simp only [if_neg hexp]
    rw [hfind]
  refine ⟨_, _, hver, rfl, rfl, rfl, rfl, ?_⟩
  intro ht2
  rw [verify_jwt_token, if_pos ⟨rfl, ht2⟩]

/-- Witness for C3 at concrete inputs starting from the empty store. -/
theorem c3_register_then_verify_witness :
    wfDB ⟨[], [], 0⟩
    ∧ (∀ u ∈ (⟨[], [], 0⟩ : DB).users, u.email ≠ "a@x.com")
    ∧ ¬ (100 : Nat) > 0 + 24 * 60
    ∧ (∃ db1 resp,
        register_user ⟨[], [], 0⟩ "a@x.com" "pw" "Ann" "K3F9ZQ" "482913" 0
          = .ok (db1, resp)
        ∧ ∃ db2 tok, verify_user db1 "a@x.com" "482913" 100 "topsecret" = .ok (db2, tok)
          ∧ tok.user_id = toString (0 : Nat)
          ∧ tok.access_token.payload.user_id = toString (0 : Nat)
          ∧ tok.access_token.payload.iat = 100
          ∧ tok.access_token.payload.exp = tok.access_token.payload.iat + 7 * 24 * 60
          ∧ (2000 < tok.access_token.payload.exp →
              verify_jwt_token tok.access_token "topsecret" 2000
                = some tok.access_token.payload)) :=
  ⟨⟨by simp, by simp⟩, by simp, by decide,
    c3_register_then_verify ⟨[], [], 0⟩ "a@x.com" "pw" "Ann" "K3F9ZQ" "482913" "topsecret"
      0 100 2000 ⟨by simp, by simp⟩ (by simp) (by decide)⟩


/-- Two chat rows denote the same unordered pair of users. -/
def samePair (a b : Chat) : Bool :=
  (a.user1_id == b.user1_id && a.user2_id == b.user2_id) ||
  (a.user1_id == b.user2_id && a.user2_id == b.user1_id)

/-- The store invariant: at most one chat row per unordered user pair. -/
def atMostOnePerPair (chats : List Chat) : Prop :=
  List.Pairwise (fun a b => samePair a b = false) chats

theorem chatMatches_symm (c : Chat) (u1 u2 : String) :
    chatMatches c u1 u2 = chatMatches c u2 u1 := by
  rw [chatMatches, chatMatches, Bool.or_comm]

/-- C6 (amended): `start_chat` fails with 400 (the spec's `InvalidArgument`)
on a self chat; run one call at a time, `start_chat(A,B)` on a store with no
chat for {A,B} creates one with `is_new = true`, a following
`start_chat(B,A)` returns the same `chat_id` with `is_new = false`, a call
that finds an existing chat returns it with `is_new = false`, and every
atomic call preserves at-most-one-chat-per-unordered-pair.  (The concurrent
part of the original claim fails: see the interleaving counterexample.) -/
theorem c6_start_chat_sequential (chats : List Chat) (u1 u2 newId newId2 : String) :
    (u1 = u2 → start_chat chats u1 u2 newId
      = .error ⟨400, "Cannot start chat with yourself"⟩)
    ∧ (u1 ≠ u2 → startChatLookup chats u1 u2 = none →
        start_chat chats u1 u2 newId
          = .ok (chats ++ [⟨newId, u1, u2⟩], ⟨newId, true, "New chat created"⟩)
        ∧ start_chat (chats ++ [⟨newId, u1, u2⟩]) u2 u1 newId2
          = .ok (chats ++ [⟨newId, u1, u2⟩], ⟨newId, false, "Chat already exists"⟩))
    ∧ (∀ c, u1 ≠ u2 → startChatLookup chats u1 u2 = some c →
        start_chat chats u1 u2 newId = .ok (chats, ⟨c.id, false, "Chat already exists"⟩))
    ∧ (∀ chats2 r, start_chat chats u1 u2 newId = .ok (chats2, r) →
        atMostOnePerPair chats → atMostOnePerPair chats2) := by
  refine ⟨?_, ?_, ?_, ?_⟩
  · intro h
    rw [start_chat, if_pos h]
  · intro hne hnone
    constructor
    · rw [start_chat, if_neg hne, startChatLookup] at *
      rw [hnone]
      rfl
    · have hlook2 : startChatLookup (chats ++ [⟨newId, u1, u2⟩]) u2 u1
          = some ⟨newId, u1, u2⟩ := by
        rw [startChatLookup, List.find?_append]
        have h1 : chats.find? (fun c => chatMatches c u2 u1) = none := by
          rw [List.find?_eq_none]
          intro c hc
          rw [← chatMatches_symm]
          have := List.find?_eq_none.mp hnone c hc
          simpa using this
        rw [h1]
        simp [chatMatches]
      rw [start_chat, if_neg (fun h => hne h.symm), hlook2]
      rfl
  · intro c hne hsome
    rw [start_chat, if_neg hne, hsome]
    rfl
  · intro chats2 r hok hinv
    rw [start_chat] at hok
    split at hok
    · exact absurd hok (by simp)
    · next hne =>
      rw [startChatFinish.eq_def] at hok
      split at hok
      · next c heq =>
        injection hok with hok
        injection hok with h1 _
        rw [← h1]
        exact hinv
      · next heq =>
        injection hok with hok
        injection hok with h1 _
        rw [← h1]
        rw [atMostOnePerPair, List.pairwise_append]
        refine ⟨hinv, by simp, ?_⟩
        intro a ha b hb
        simp only [List.mem_singleton] at hb
        subst hb
        have hnone := List.find?_eq_none.mp heq a ha
        have : chatMatches a u1 u2 = false := by simpa using hnone
        rw [samePair]
        simpa [chatMatches] using this

/-- Witness for C6 (amended) at concrete inputs: create then re-resolve in
the opposite order. -/
theorem c6_start_chat_witness :
    ("A" : String) ≠ "B" ∧ startChatLookup [] "A" "B" = none
    ∧ (start_chat [] "A" "B" "c1"
        = .ok ([] ++ [⟨"c1", "A", "B"⟩], ⟨"c1", true, "New chat created"⟩)
      ∧ start_chat ([] ++ [⟨"c1", "A", "B"⟩]) "B" "A" "c2"
        = .ok ([] ++ [⟨"c1", "A", "B"⟩], ⟨"c1", false, "Chat already exists"⟩)) :=
  ⟨by decide, by decide,
    (c6_start_chat_sequential [] "A" "B" "c1" "c2").2.1 (by decide) (by decide)⟩

/-- C6 counterexample: under the interleaving in which both requests run
their existence check against the initial store before either insert
commits, `start_chat(A,B)` and `start_chat(B,A)` both report `is_new = true`
with distinct chat ids, and the final store violates
at-most-one-chat-per-unordered-pair.  (The first conjunct records that the
atomic `start_chat` is exactly the composition of the two phases.) -/
theorem c6_concurrent_counterexample :
    start_chat [] "A" "B" "c1"
      = .ok (startChatFinish [] (startChatLookup [] "A" "B") "A" "B" "c1")
    ∧ startChatLookup [] "A" "B" = none
    ∧ startChatLookup [] "B" "A" = none
    ∧ (startChatFinish [] (startChatLookup [] "A" "B") "A" "B" "c1").2.is_new = true
    ∧ (startChatFinish (startChatFinish [] (startChatLookup [] "A" "B") "A" "B" "c1").1
        (startChatLookup [] "B" "A") "B" "A" "c2").2.is_new = true
    ∧ (startChatFinish [] (startChatLookup [] "A" "B") "A" "B" "c1").2.chat_id
        ≠ (startChatFinish (startChatFinish [] (startChatLookup [] "A" "B") "A" "B" "c1").1
            (startChatLookup [] "B" "A") "B" "A" "c2").2.chat_id
    ∧ ¬ atMostOnePerPair (startChatFinish (startChatFinish []
          (startChatLookup [] "A" "B") "A" "B" "c1").1
          (startChatLookup [] "B" "A") "B" "A" "c2").1 := by
  refine ⟨rfl, rfl, rfl, rfl, rfl, by decide, ?_⟩
  intro h
  rw [atMostOnePerPair] at h
  have := List.pairwise_cons.mp h
  have h2 := this.1 ⟨"c2", "B", "A"⟩ (by decide)
  exact absurd h2 (by decide)


instance : DecidableEq (Except CipherFailure (List Nat)) := fun a b =>
  match a, b with
  | .ok x, .ok y => if h : x = y then .isTrue (by rw [h]) else .isFalse (by simp [h])
  | .error x, .error y => if h : x = y then .isTrue (by rw [h]) else .isFalse (by simp [h])
  | .ok _, .error _ => .isFalse (by simp)
  | .error _, .ok _ => .isFalse (by simp)

/-- C7 (amended): on well-formed base64 inputs, `decrypt_message` fails
exactly when the decoded key length is not an accepted AES key size (128,
192 or 256 bits — 128- and 192-bit keys are accepted, not only 256), or the
decoded IV is not 128 bits, or the ciphertext length is not a multiple of
the 128-bit block, or the PKCS#7 padding is invalid after decryption, or the
unpadded bytes are not valid UTF-8; and the reported message embeds the
underlying exception's text, which is different for every cause, so the
failure does reveal which cause occurred. -/
theorem c7_decrypt_failure_spec (C : BlockCipher) (ct iv keyB : List Nat)
    (hct : validBytes ct = true) (hiv : validBytes iv = true)
    (hkey : validBytes keyB = true) :
    ((∃ e, decrypt_message C (b64Encode ct) (b64Encode iv) (b64Encode keyB) = .error e)
      ↔ (aesKeySizes keyB.length ≠ true ∨ iv.length ≠ 16 ∨ ct.length % 16 ≠ 0 ∨
          pkcs7Unpad (cbcDecBlocks C keyB iv (chunkList 16 ct)).flatten = none ∨
          ∃ plain,
            pkcs7Unpad (cbcDecBlocks C keyB iv (chunkList 16 ct)).flatten = some plain
            ∧ utf8Decode plain = none))
    ∧ (∀ e1 e2 : CipherFailure,
        decryptionErrorMessage e1 = decryptionErrorMessage e2 → e1 = e2) := by
  constructor
  · rw [decrypt_message, b64Decode_encode keyB hkey, b64Decode_encode ct hct,
      b64Decode_encode iv hiv]
    simp only []
    by_cases hk : aesKeySizes keyB.length = true
    · by_cases hivlen : iv.length = 16
      · by_cases hmod : ct.length % 16 = 0
        · rw [if_pos hk, if_pos hivlen, if_pos hmod]
          cases hup : pkcs7Unpad (cbcDecBlocks C keyB iv (chunkList 16 ct)).flatten with
          | none =>
            apply iff_of_true ⟨.badPadding, rfl⟩
            exact Or.inr (Or.inr (Or.inr (Or.inl rfl)))
          | some plain =>
            simp only []
            cases hdec : utf8Decode plain with
            | none =>
              apply iff_of_true ⟨.badUtf8, rfl⟩
              exact Or.inr (Or.inr (Or.inr (Or.inr ⟨plain, rfl, hdec⟩)))
            | some msg =>
              apply iff_of_false
              · intro ⟨e, he⟩
                exact absurd he (by simp)
              · intro hcon
                rcases hcon with h | h | h | h | ⟨p, hp, hd⟩
                · exact h hk
                · exact h hivlen
                · exact h hmod
                · exact absurd h (by simp)
                · injection hp with hp
                  rw [← hp, hdec] at hd
                  exact absurd hd (by simp)
        · rw [if_pos hk, if_pos hivlen, if_neg hmod]
          exact iff_of_true ⟨.badBlockLength, rfl⟩ (Or.inr (Or.inr (Or.inl hmod)))
      · rw [if_pos hk, if_neg hivlen]
        exact iff_of_true ⟨.badIvLength, rfl⟩ (Or.inr (Or.inl hivlen))
    · rw [if_neg hk]
      exact iff_of_true ⟨.badKeyLength, rfl⟩ (Or.inl hk)
  · intro e1 e2 h
    cases e1 <;> cases e2 <;> first
      | rfl
      | exact absurd h (by decide)

/-- Witness for C7 (amended) at concrete inputs: a one-block ciphertext
whose final decrypted byte is not valid PKCS#7 padding fails, and the
characterization classifies it as a padding failure. -/
theorem c7_decrypt_failure_witness :
    validBytes (List.replicate 16 0) = true
    ∧ ((∃ e, decrypt_message idBlockCipher (b64Encode (List.replicate 16 0))
          (b64Encode (List.replicate 16 0)) (b64Encode (List.replicate 32 0)) = .error e)
        ↔ (aesKeySizes (List.replicate 32 0).length ≠ true
            ∨ (List.replicate 16 0).length ≠ 16
            ∨ (List.replicate 16 0).length % 16 ≠ 0
            ∨ pkcs7Unpad (cbcDecBlocks idBlockCipher (List.replicate 32 0)
                (List.replicate 16 0) (chunkList 16 (List.replicate 16 0))).flatten = none
            ∨ ∃ plain,
                pkcs7Unpad (cbcDecBlocks idBlockCipher (List.replicate 32 0)
                  (List.replicate 16 0) (chunkList 16 (List.replicate 16 0))).flatten
                  = some plain
                ∧ utf8Decode plain = none))
    ∧ decrypt_message idBlockCipher (b64Encode (List.replicate 16 0))
        (b64Encode (List.replicate 16 0)) (b64Encode (List.replicate 32 0))
        = .error .badPadding :=
  ⟨by decide,
    ((c7_decrypt_failure_spec idBlockCipher (List.replicate 16 0) (List.replicate 16 0)
      (List.replicate 32 0) (by decide) (by decide) (by decide))).1,
    by decide⟩

/-- C7 counterexample: the claim requires a `DecryptionError` whenever the
decoded key length is not 256 bits, but a 128-bit (16-byte) key is accepted
by the AES constructor and this decryption succeeds. -/
theorem c7_short_key_decrypts :
    b64Decode (b64Encode (List.replicate 16 0)) = some (List.replicate 16 0)
    ∧ (List.replicate 16 0).length = 16
    ∧ decrypt_message idBlockCipher (b64Encode (List.replicate 16 16))
        (b64Encode (List.replicate 16 0)) (b64Encode (List.replicate 16 0))
        = .ok [] := by
  decide

/-- C8: the generic `message` field is identical whether or not the email
exists, but the full response is distinguishable — for an existing email it
additionally carries the freshly generated reset code (dev-mode leak),
contradicting the account-enumeration guarantee; the side effect stores a
code with a 1-hour (60-minute) lifetime for the existing email only. -/
theorem c8_reset_request_leaks :
    (reset_password_request ⟨[], [], 0⟩ "a@x.com" "111111" 0).2
      = ⟨"If the email exists, a reset code has been sent", none⟩
    ∧ (reset_password_request ⟨[⟨0, "a@x.com", "h", "Ann", "K3F9ZQ", true⟩], [], 1⟩
        "a@x.com" "111111" 0).2
      = ⟨"If the email exists, a reset code has been sent", some "111111"⟩
    ∧ (reset_password_request ⟨[], [], 0⟩ "a@x.com" "111111" 0).2
      ≠ (reset_password_request ⟨[⟨0, "a@x.com", "h", "Ann", "K3F9ZQ", true⟩], [], 1⟩
          "a@x.com" "111111" 0).2
    ∧ (reset_password_request ⟨[], [], 0⟩ "a@x.com" "111111" 0).2.message
      = (reset_password_request ⟨[⟨0, "a@x.com", "h", "Ann", "K3F9ZQ", true⟩], [], 1⟩
          "a@x.com" "111111" 0).2.message
    ∧ (reset_password_request ⟨[], [], 0⟩ "a@x.com" "111111" 0).1 = ⟨[], [], 0⟩
    ∧ (reset_password_request ⟨[⟨0, "a@x.com", "h", "Ann", "K3F9ZQ", true⟩], [], 1⟩
        "a@x.com" "111111" 0).1.codes = [⟨0, "111111", 0 + 60, false, 0⟩] := by
  refine ⟨rfl, rfl, ?_, rfl, rfl, rfl⟩
  intro h
  have h2 := congrArg ResetRequestResponse.reset_code h
  rw [show (reset_password_request ⟨[], [], 0⟩ "a@x.com" "111111" 0).2.reset_code
      = none from rfl,
    show (reset_password_request ⟨[⟨0, "a@x.com", "h", "Ann", "K3F9ZQ", true⟩], [], 1⟩
        "a@x.com" "111111" 0).2.reset_code = some "111111" from rfl] at h2
  exact absurd h2 (by simp)

/-- C9: a successful registration's response is not the shape `{pin, email}`
— the concrete run produces `{message, user_pin, email, verification_code}`
with the one-time verification code included (dev-mode leak). -/
theorem c9_register_response_contains_code :
    (register_user ⟨[], [], 0⟩ "a@x.com" "pw" "Ann" "K3F9ZQ" "482913" 0).toOption.map
        (fun r => r.2)
      = some (⟨"Registration successful. Please verify your email.", "K3F9ZQ", "a@x.com",
          some "482913"⟩ : RegisterResponse)
    ∧ (register_user ⟨[], [], 0⟩ "a@x.com" "pw" "Ann" "K3F9ZQ" "482913" 0).toOption.map
        (fun r => r.2.verification_code) = some (some "482913")
    ∧ (some "482913" : Option String) ≠ none := by
  refine ⟨rfl, rfl, ?_⟩
  intro h
  exact absurd h (by simp)


end SecretChat
